import Mathlib

set_option maxRecDepth 20000

/-!
# Verification of the lexorank repository

Shallow embedding of the two Go source files of the `lexorank` package:
`lexorank.go` (the `Posn` variant: `byteToOrder`, `ParseJira`, `Posn.String`,
`Ranks`, `minorRanks`, `majorRanks`, `trailer`, `mids`, `getChar`) and the
second, unnamed file (the plain-string variant: `Rank`, `Ranks`, `mids`,
`getChar`).

Conventions of the embedding:
* Go strings are byte slices; they are modelled as `List Nat` of byte values
  (e.g. the string `"0"` is `[48]`, `"z"` is `[122]`, `":"` is `[58]`).
* Go `panic` (both the explicit `panic("TODO")` and runtime panics: slice
  bounds out of range, index out of range, integer division by zero,
  `make` with negative length) is modelled by an explicit `crash` result.
* The source's unbounded `for` loops are modelled with a fuel parameter;
  running out of fuel yields the distinguished result `more` ("the loop is
  still running after `fuel` iterations").
* Go `int` is modelled as `Int` (the inputs relevant here never approach
  2^63) and Go's truncated integer division as `goDiv`.
-/

namespace Lexorank

/-- Result of a Go computation: a value, or a Go panic. -/
inductive GoRes (α : Type) where
  | ok : α → GoRes α
  | crash : GoRes α
  deriving DecidableEq

/-- Result of one of the rank-generating functions, which in Go return a
pair `(slice, ok)`: a normal return, a Go panic, or fuel exhaustion of the
modelled unbounded loop. -/
inductive RRes (α : Type) where
  | ret : List α → Bool → RRes α
  | crash : RRes α
  | more : RRes α
  deriving DecidableEq

/-- `const orderToByte = "0123456789ABCDEFGHIJKLMNOPQRSTUVWXYZabcdefghijklmnopqrstuvwxyz"`
as the list of its 62 byte values: digits 48..57, uppercase 65..90,
lowercase 97..122. -/
def orderToByte : List Nat :=
  (List.range 10).map (fun j => 48 + j) ++
  (List.range 26).map (fun j => 65 + j) ++
  (List.range 26).map (fun j => 97 + j)

/-- `func byteToOrder(b byte) byte` (identical in both source files; the
`Posn` file wraps it in a guard that panics when the result is negative or
above 62, which never fires: see `byteToOrder_le`). Maps a byte to its
ordinal: digits to 0..9, uppercase to 10..35, lowercase to 36..61; other
bytes below the uppercase range clamp to 0 and the rest clamp to 61. -/
def byteToOrder (b : Nat) : Nat :=
  if 48 ≤ b ∧ b ≤ 57 then b - 48
  else if 65 ≤ b ∧ b ≤ 90 then b - 65 + 10
  else if 97 ≤ b ∧ b ≤ 122 then b - 97 + 10 + 26
  else if b < 65 then 0
  else 10 + 26 + 26 - 1

/-- The wrapper's panic guard (`n < 0 || n > 62`) in `lexorank.go` is dead
code: the ordinal is always at most 61. -/
theorem byteToOrder_le (b : Nat) : byteToOrder b ≤ 61 := by
  unfold byteToOrder
  split <;> [omega; skip]
  split <;> [omega; skip]
  split <;> [omega; split <;> omega]

/-- `minChar = byte('0')`. -/
def minChar : Nat := 48

/-- `maxChar = byte('z')`. -/
def maxChar : Nat := 122

/-- `const MaxMultiRank = 10 + 26 + 26 - 1`. -/
def MaxMultiRank : Nat := 10 + 26 + 26 - 1

/-- `const trailer = "UUUUUUUU"` (eight copies of byte 85). -/
def trailerStr : List Nat := List.replicate 8 85

/-- `func getChar(s string, i int, defaultChar byte) byte`: `s[i]`, or the
default character when `i` is past the end of `s`. `List.getD` has exactly
these semantics. -/
def getChar (s : List Nat) (i : Nat) (d : Nat) : Nat := s.getD i d

/-- Go's `/` on `int`: truncated division (quotient of the absolute values,
with the sign of the exact quotient). Division by zero is guarded at the
call site, where Go would panic. -/
def goDiv (a b : Int) : Int :=
  if (0 ≤ a ∧ 0 ≤ b) ∨ (a < 0 ∧ b < 0) then ((a.natAbs / b.natAbs : Nat) : Int)
  else -((a.natAbs / b.natAbs : Nat) : Int)

/-- The index loop of `mids`: `ch[i] = orderToByte[int(prevo)+per*(i+1)]`
for `i = 0..cnt-1`. Go panics when any index falls outside the 62-byte
constant, modelled by the guard. -/
def midsBuild (prevo : Nat) (per : Int) (cnt : Nat) : GoRes (List Nat) :=
  if (List.range cnt).all
      (fun j => decide (0 ≤ (prevo : Int) + per * ((j : Int) + 1) ∧
                        (prevo : Int) + per * ((j : Int) + 1) < 62)) then
    .ok ((List.range cnt).map
      (fun j => orderToByte.getD ((prevo : Int) + per * ((j : Int) + 1)).toNat 0))
  else .crash

/-- `func mids(n int, prev, next byte) ([]byte, bool)` (identical in both
source files). `nexto - prevo` is Go byte subtraction, which wraps modulo
256; `per` is truncated `int` division by `n+1`, so `n = -1` is a division
by zero (Go panic); `make([]byte, n)` with negative `n` would also panic,
though that point is unreachable because `per < 1` whenever `n + 1 < 0`. -/
def mids (n : Int) (prev next : Nat) : GoRes (List Nat × Bool) :=
  let prevo := byteToOrder prev
  let nexto := byteToOrder next
  if n + 1 = 0 then .crash
  else
    let per := goDiv (((nexto + 256 - prevo) % 256 : Nat) : Int) (n + 1)
    if per < 1 then .ok ([], false)
    else if n < 0 then .crash
    else
      match midsBuild prevo per n.toNat with
      | .ok ch => .ok (ch, true)
      | .crash => .crash

/-- `type Posn struct { Bucket byte; Major string; Minor string }`. -/
structure Posn where
  Bucket : Nat
  Major : List Nat
  Minor : List Nat
  deriving DecidableEq

/-- The divergence ("fork in the road") branch of `majorRanks`, lines
152-167 of `lexorank.go`: measure the space after this index on each side
and rewrite one bound's major up to and including index `i`. The Go slice
`s[:i]` panics when `i > len(s)`. `MaxMultiRank - prevAfter` is Go `int`
subtraction; since `byteToOrder` is at most 61 (`byteToOrder_le`), the
`Nat` subtraction here agrees with it. Returns the new pair of majors and
the character appended to `rank`. -/
def forkStep (prevM nextM : List Nat) (i : Nat) (prevChar nextChar : Nat) :
    GoRes ((List Nat × List Nat) × Nat) :=
  let prevAfter := byteToOrder (getChar prevM (i + 1) minChar)
  let nextAfter := byteToOrder (getChar nextM (i + 1) maxChar)
  if MaxMultiRank - prevAfter > nextAfter then
    if i ≤ nextM.length then .ok ((prevM, nextM.take i ++ [prevChar]), prevChar)
    else .crash
  else
    if i ≤ prevM.length then .ok ((prevM.take i ++ [nextChar], nextM), nextChar)
    else .crash

/-- The `for` loop of `func majorRanks(n int, prev, next Posn) ([]Posn, bool)`,
with the state that changes across iterations (the two majors, the
accumulated `rank`, the index `i`) explicit and a fuel bound. `majorLen`
and the bucket are loop constants. On success each emitted Posn is
`rank + mid + trailer[:majorLen-1-len(rank)]` with minor `":"`; the slice
of the 8-byte trailer panics when the requested length is negative or
exceeds 8. -/
def majorLoop (n : Int) (majorLen bucket : Nat)
    (prevM nextM rank : List Nat) (i : Nat) : Nat → RRes Posn
  | 0 => .more
  | fuel + 1 =>
    let prevChar := getChar prevM i minChar
    let nextChar := getChar nextM i maxChar
    if prevChar = nextChar then
      majorLoop n majorLen bucket prevM nextM (rank ++ [prevChar]) (i + 1) fuel
    else
      match mids n prevChar nextChar with
      | .crash => .crash
      | .ok (_, false) =>
        match forkStep prevM nextM i prevChar nextChar with
        | .crash => .crash
        | .ok ((p, q), c) =>
          majorLoop n majorLen bucket p q (rank ++ [c]) (i + 1) fuel
      | .ok (midChars, true) =>
        if rank.length = majorLen then .ret [] false
        else
          let k : Int := (majorLen : Int) - 1 - (rank.length : Int)
          if k < 0 ∨ 8 < k then .crash
          else .ret (midChars.map (fun mid =>
            { Bucket := bucket
              Major := rank ++ [mid] ++ trailerStr.take k.toNat
              Minor := [58] })) true

/-- `func majorRanks(n int, prev, next Posn) ([]Posn, bool)`:
`majorLen := max(len(prev.Major), len(next.Major))`, then the loop starting
from empty `rank` and index 0. -/
def majorRanks (n : Int) (prev next : Posn) (fuel : Nat) : RRes Posn :=
  majorLoop n (max prev.Major.length next.Major.length) prev.Bucket
    prev.Major next.Major [] 0 fuel

/-- `func minorRanks(n int, prev, next Posn) ([]Posn, bool) { panic("TODO") }`. -/
def minorRanks (n : Int) (prev next : Posn) : RRes Posn := .crash

/-- `func Ranks(n int, prev, next *Posn) ([]Posn, bool)` of `lexorank.go`:
reject `n > MaxMultiRank`; substitute the sentinel `{Major: "000000",
Minor: ":"}` / `{Major: "zzzzzz", Minor: ":"}` for an absent bound,
adopting the other bound's bucket; try `majorRanks` when the majors differ
and fall through to `minorRanks` otherwise or on its failure. -/
def Ranks (n : Int) (prev next : Option Posn) (fuel : Nat) : RRes Posn :=
  if n > (MaxMultiRank : Int) then .ret [] false
  else
    let prev1 : Posn :=
      match prev with
      | some p => p
      | none =>
        { Bucket := (match next with | some q => q.Bucket | none => 0)
          Major := [48, 48, 48, 48, 48, 48], Minor := [58] }
    let next1 : Posn :=
      match next with
      | some q => q
      | none =>
        { Bucket := prev1.Bucket
          Major := [122, 122, 122, 122, 122, 122], Minor := [58] }
    if prev1.Major = next1.Major then minorRanks n prev1 next1
    else
      match majorRanks n prev1 next1 fuel with
      | .ret p true => .ret p true
      | .ret _ false => minorRanks n prev1 next1
      | .crash => .crash
      | .more => .more

/-- The `for` loop of the plain-string `func Ranks(n int, prev, next string)`
of the unnamed source file: when `mids` finds no room it simply appends the
lower bound's character to `rank` and advances; on success each result is
`rank + mid` (no length cap, no trailer). -/
def ranksSLoop (n : Int) (prevS nextS rank : List Nat) (i : Nat) :
    Nat → RRes (List Nat)
  | 0 => .more
  | fuel + 1 =>
    let prevChar := getChar prevS i minChar
    let nextChar := getChar nextS i maxChar
    if prevChar = nextChar then
      ranksSLoop n prevS nextS (rank ++ [prevChar]) (i + 1) fuel
    else
      match mids n prevChar nextChar with
      | .crash => .crash
      | .ok (_, false) => ranksSLoop n prevS nextS (rank ++ [prevChar]) (i + 1) fuel
      | .ok (midChars, true) => .ret (midChars.map (fun mid => rank ++ [mid])) true

/-- `func Ranks(n int, prev, next string) ([]string, bool)` of the unnamed
source file: reject `n > MaxMultiRank`, substitute single-character
sentinels `"0"` / `"z"` for empty bounds, then run the loop. -/
def RanksS (n : Int) (prev next : List Nat) (fuel : Nat) : RRes (List Nat) :=
  if n > (MaxMultiRank : Int) then .ret [] false
  else
    ranksSLoop n (if prev = [] then [minChar] else prev)
      (if next = [] then [maxChar] else next) [] 0 fuel

/-- Decimal rendering of a byte value, as `fmt.Sprintf("%d", ...)` prints
`p.Bucket` (a `byte`, hence at most three digits). -/
def decimalBytes (b : Nat) : List Nat :=
  if b < 10 then [48 + b]
  else if b < 100 then [48 + b / 10, 48 + b % 10]
  else [48 + b / 100, 48 + b / 10 % 10, 48 + b % 10]

/-- `func (p Posn) String() string`: `fmt.Sprintf("%d|%s%s", p.Bucket,
p.Major, p.Minor)`. -/
def posnString (p : Posn) : List Nat :=
  decimalBytes p.Bucket ++ [124] ++ p.Major ++ p.Minor

/-- Membership in the character class `[0-9a-z]` of the `jiraRank` regular
expression. -/
def isBase36 (c : Nat) : Bool := (48 ≤ c && c ≤ 57) || (97 ≤ c && c ≤ 122)

/-- `func ParseJira(rank string) (Posn, bool)`: match the anchored regular
expression `^([012])\|([0-9a-z]+)(:[0-9a-z]*)?$` and build
`Posn{Bucket: m[1][0] - '0', Major: m[2], Minor: m[3]}`; `none` models the
`(Posn{}, false)` failure return. Because `:` is not in `[0-9a-z]`, the
major group is exactly the maximal base-36 run after the `|`, and the
optional minor group (kept with its leading `:`) must reach the end of the
input. -/
def parseJira (s : List Nat) : Option Posn :=
  match s with
  | b :: c :: rest =>
    if (b = 48 ∨ b = 49 ∨ b = 50) ∧ c = 124 then
      let major := rest.takeWhile isBase36
      let rem := rest.dropWhile isBase36
      if major = [] then none
      else
        match rem with
        | [] => some { Bucket := b - 48, Major := major, Minor := [] }
        | 58 :: ms =>
          if ms.all isBase36 then
            some { Bucket := b - 48, Major := major, Minor := 58 :: ms }
          else none
        | _ => none
    else none
  | _ => none

/-- Byte-wise (shortlex-free, plain lexicographic) strict comparison of two
byte strings, as Go string `<` compares. -/
def bytesLtb : List Nat → List Nat → Bool
  | [], [] => false
  | [], _ :: _ => true
  | _ :: _, [] => false
  | a :: as, b :: bs =>
    if a < b then true else if b < a then false else bytesLtb as bs

/-- Strict order on Posn values by `(bucket, major, minor)` byte-wise
lexicographic comparison (the spec's defined ordering of Positions). -/
def posnLtb (p q : Posn) : Bool :=
  if p.Bucket < q.Bucket then true
  else if q.Bucket < p.Bucket then false
  else if bytesLtb p.Major q.Major then true
  else if bytesLtb q.Major p.Major then false
  else bytesLtb p.Minor q.Minor

end Lexorank

namespace Lexorank

/-! ## Claim C1 -/

/-- Claim C1 (ordering of generated ranks) fails on the code: with the
valid bounds lower = `{0, "00y", ":"}` and upper = `{0, "01", ":"}`
(lower sorts strictly below upper) and batch size 1, `Ranks` reports
success with the single rank `{0, "01U", ":"}`, but that rank sorts
strictly ABOVE the upper bound under byte-wise `(bucket, major, minor)`
comparison, because the padded major `"01U"` extends the upper bound's
major `"01"`. -/
theorem C1_code_bug :
    bytesLtb [48, 48, 121] [48, 49] = true ∧
    Ranks 1 (some ⟨0, [48, 48, 121], [58]⟩) (some ⟨0, [48, 49], [58]⟩) 10 =
      .ret [⟨0, [48, 49, 85], [58]⟩] true ∧
    posnLtb ⟨0, [48, 49], [58]⟩ ⟨0, [48, 49, 85], [58]⟩ = true := by
  decide

/-! ## Claim C2 -/

/-- Claim C2 as stated is false: at batch size N = 61 (which the claim
includes, and which the `n > MaxMultiRank` guard admits) with bounds
`"0"` and `"z"`, the `majorRanks` loop is still running after
`max(len, len) + N = 62` iterations — in fact it never terminates, because
`mids` can never place 61 interior symbols (spacing `61/62 = 0`) and every
divergence step rewrites the lower major and continues. -/
theorem C2_counterexample :
    majorRanks 61 ⟨0, [48], [58]⟩ ⟨0, [122], [58]⟩ 62 = .more := by
  decide

/-! ## Claim C3 -/

/-- Claim C3 is false as stated at the claim's own example: with the
adjacent single-symbol majors `"A"` and `"B"` and N = 1, the major-level
splitter does return a false ok flag, but the public `Posn`-variant call
then ABORTS in the `minorRanks` stub instead of returning the flag; and
the plain-string variant does not fail at all — it succeeds with `"AU"`. -/
theorem C3_counterexample :
    majorRanks 1 ⟨0, [65], [58]⟩ ⟨0, [66], [58]⟩ 10 = .ret [] false ∧
    Ranks 1 (some ⟨0, [65], [58]⟩) (some ⟨0, [66], [58]⟩) 10 = .crash ∧
    RanksS 1 [65] [66] 10 = .ret [[65, 85]] true := by
  decide

/-! ## Claim C4 -/

/-- Claim C4 is false as stated: a call of the `Posn`-variant `Ranks` with
equal majors does NOT abort unconditionally — with n = 62 the
`n > MaxMultiRank` batch-size guard returns the failure flag `(nil, false)`
before the minor-value path is reached. -/
theorem C4_counterexample :
    Ranks 62 (some ⟨0, [65], [58]⟩) (some ⟨0, [65], [58]⟩) 5 = .ret [] false := by
  decide

/-! ## Claim C5 -/

/-- Claim C5 is false as stated: with bounds `"0"` and `"z"` and N = 1,
generation succeeds with major `"U"`, whose length is 1 =
`max(len(lowerMajor), len(upperMajor))`, not
`max(len(lowerMajor), len(upperMajor)) - 1 = 0` as the claim demands
(the `- 1` in the source applies to the trailer budget
`majorLen - 1 - len(rank)`, not to the final length). -/
theorem C5_counterexample :
    Ranks 1 (some ⟨0, [48], [58]⟩) (some ⟨0, [122], [58]⟩) 5 =
      .ret [⟨0, [85], [58]⟩] true ∧
    ¬ (([85] : List Nat).length = max [48].length [122].length - 1) := by
  decide

/-! ## Claim C6 -/

/-- Claim C6 is false as stated: the Position with bucket 0, major `"A"`
(a symbol of the 62-symbol alphabet) and empty minor is expressible in the
claimed grammar, but parsing its formatted text `"0|A"` fails, because the
`jiraRank` regular expression only admits the 36 symbols `[0-9a-z]` in the
major, not the full 62-symbol alphabet. -/
theorem C6_counterexample :
    parseJira (posnString ⟨0, [65], []⟩) = none := by
  decide

/-! ## Claim C7 -/

/-- The divergence step as claim C7 words it: the bound with MORE
remaining capacity is the one whose major is rewritten, up to and
including index `i`, to equal the other bound's character at `i`, which is
the chosen character (ties are not prescribed by the claim; this model
leaves the state unchanged there). Defined from the claim's words, for
comparison against `forkStep`, which is defined from the source. -/
def claimForkStep (prevM nextM : List Nat) (i : Nat) (prevChar nextChar : Nat) :
    (List Nat × List Nat) × Nat :=
  let prevAfter := byteToOrder (getChar prevM (i + 1) minChar)
  let nextAfter := byteToOrder (getChar nextM (i + 1) maxChar)
  if MaxMultiRank - prevAfter > nextAfter then
    ((prevM.take i ++ [nextChar], nextM), nextChar)
  else if nextAfter > MaxMultiRank - prevAfter then
    ((prevM, nextM.take i ++ [prevChar]), prevChar)
  else
    ((prevM, nextM), prevChar)

/-- Claim C7's general rule is false on the code at the claim's own
concrete scenario: at the divergence of `"005z"` and `"006b"` (index 2,
after the shared prefix `"00"`), capacity-after-prev is `61 - 61 = 0` and
capacity-before-next is `37`, so the upper bound has strictly more
remaining capacity; the claim then demands the upper bound be rewritten
(to `"005"`), but the code rewrites the LOWER bound (to `"006"`) — it
always rewrites the side with less-or-equal capacity. -/
theorem C7_counterexample :
    byteToOrder (getChar [48, 48, 53, 122] 3 minChar) = 61 ∧
    byteToOrder (getChar [48, 48, 54, 98] 3 maxChar) = 37 ∧
    claimForkStep [48, 48, 53, 122] [48, 48, 54, 98] 2 53 54 =
      (([48, 48, 53, 122], [48, 48, 53]), 53) ∧
    forkStep [48, 48, 53, 122] [48, 48, 54, 98] 2 53 54 =
      .ok (([48, 48, 54], [48, 48, 54, 98]), 54) := by
  decide

/-! ## Claim C8 -/

/-- Claim C8 (concrete midpoint scenarios) holds: with lower major `"0"`
and upper major `"z"`, N = 1 yields the single major `"U"` (ordinal 30),
and N = 3 yields exactly the majors `"F"`, `"U"`, `"j"` (ordinals 15, 30,
45) in that order. -/
theorem C8_confirmed :
    Ranks 1 (some ⟨0, [48], [58]⟩) (some ⟨0, [122], [58]⟩) 5 =
      .ret [⟨0, [85], [58]⟩] true ∧
    Ranks 3 (some ⟨0, [48], [58]⟩) (some ⟨0, [122], [58]⟩) 5 =
      .ret [⟨0, [70], [58]⟩, ⟨0, [85], [58]⟩, ⟨0, [106], [58]⟩] true := by
  decide

/-! ## Claim C9 -/

/-- Claim C9 holds: the lower limit 1 ≤ N is not enforced. In both
variants, `Ranks` with n = 0 and the widely separated majors `"0"` and
`"z"` returns an empty sequence with ok = true, and `Ranks` with n = -1
reaches the spacing computation `(order(next) - order(prev)) / (n + 1)`
whose divisor is zero, a Go integer-division-by-zero panic, instead of
returning a failure flag. -/
theorem C9_confirmed :
    Ranks 0 (some ⟨0, [48], [58]⟩) (some ⟨0, [122], [58]⟩) 5 = .ret [] true ∧
    Ranks (-1) (some ⟨0, [48], [58]⟩) (some ⟨0, [122], [58]⟩) 5 = .crash ∧
    RanksS 0 [48] [122] 5 = .ret [] true ∧
    RanksS (-1) [48] [122] 5 = .crash := by
  decide

end Lexorank

namespace Lexorank

/-! ## Claim C4, amended -/

/-- Claim C4, amended to account for the batch-size guard: for every call
of the `Posn`-variant `Ranks` with n ≤ MaxMultiRank (61) in which the two
bounds' majors are equal, the minor-value path is taken and aborts
unconditionally (the `panic("TODO")` stub); and likewise whenever
major-level splitting reports no room, the call aborts in the same stub,
returning neither ranks nor a failure flag. (For n > 61 the guard returns
the failure flag before the minor path is reached: `C4_counterexample`.) -/
theorem C4_amended (n : Int) (hn : n ≤ 61) (p q : Posn) (fuel : Nat) (l : List Posn) :
    (p.Major = q.Major → Ranks n (some p) (some q) fuel = .crash) ∧
    (majorRanks n p q fuel = .ret l false → Ranks n (some p) (some q) fuel = .crash) := by
  have hg : ¬ (n > (MaxMultiRank : Int)) := by
    simp only [MaxMultiRank]; omega
  constructor
  · intro h
    simp only [Ranks, if_neg hg, if_pos h, minorRanks]
  · intro h
    simp only [Ranks, if_neg hg]
    by_cases hMaj : p.Major = q.Major
    · simp only [if_pos hMaj, minorRanks]
    · simp only [if_neg hMaj, h, minorRanks]

/-- Witness for `C4_amended`: with n = 1 and both bounds `{0, "A", ":"}`
the call aborts. -/
theorem C4_witness :
    Ranks 1 (some ⟨0, [65], [58]⟩) (some ⟨0, [65], [58]⟩) 5 = .crash :=
  (C4_amended 1 (by decide) ⟨0, [65], [58]⟩ ⟨0, [65], [58]⟩ 5 []).1 rfl

/-! ## Claim C10 -/

/-- Claim C10 holds: whenever the `majorRanks` loop finds room (the
characters at index `i` differ and `mids` succeeds) but the trailer budget
`majorLen - 1 - len(rank)` exceeds the 8 bytes of the filler constant
`"UUUUUUUU"`, the slice expression panics, so the call aborts instead of
returning a result or a failure flag. -/
theorem C10_confirmed (n : Int) (majorLen bucket : Nat) (pM nM rank : List Nat)
    (i fuel : Nat) (l : List Nat)
    (hne : getChar pM i minChar ≠ getChar nM i maxChar)
    (hm : mids n (getChar pM i minChar) (getChar nM i maxChar) = .ok (l, true))
    (hlen : rank.length ≠ majorLen)
    (hk : 8 < (majorLen : Int) - 1 - (rank.length : Int)) :
    majorLoop n majorLen bucket pM nM rank i (fuel + 1) = .crash := by
  simp only [majorLoop, if_neg hne, hm, if_neg hlen, if_pos (Or.inr hk)]

/-- Witness for `C10_confirmed`: both majors of length 10, differing at
their first character (`"0000000000"` and `"z000000000"`), N = 1: the loop
finds room immediately (`mids` yields `"U"`), the trailer budget is
`10 - 1 - 0 = 9 > 8`, and the call aborts. -/
theorem C10_witness :
    majorLoop 1 10 0 (List.replicate 10 48) (122 :: List.replicate 9 48) [] 0 5 =
      .crash :=
  C10_confirmed 1 10 0 (List.replicate 10 48) (122 :: List.replicate 9 48) [] 0 4
    [85] (by decide) (by decide) (by decide) (by decide)

end Lexorank

namespace Lexorank

/-! ## Claim C5, amended -/

/-- Length invariant of the `majorRanks` loop: on any successful return,
every emitted major has length exactly `majorLen` (the trailer budget is
`majorLen - 1 - len(rank)`, which the success branch has checked to be
between 0 and 8, so `len(rank) + 1 + budget = majorLen`). -/
theorem majorLoop_ret_length (n : Int) (L bucket : Nat) :
    ∀ (fuel : Nat) (pM nM rank : List Nat) (i : Nat) (ranks : List Posn),
      majorLoop n L bucket pM nM rank i fuel = .ret ranks true →
      ∀ r ∈ ranks, r.Major.length = L := by
  intro fuel
  induction fuel with
  | zero =>
    intro pM nM rank i ranks h
    exact absurd h (by simp [majorLoop])
  | succ fuel ih =>
    intro pM nM rank i ranks h
    simp only [majorLoop] at h
    by_cases hc : getChar pM i minChar = getChar nM i maxChar
    · rw [if_pos hc] at h
      exact ih _ _ _ _ _ h
    · rw [if_neg hc] at h
      rcases hm : mids n (getChar pM i minChar) (getChar nM i maxChar) with pr | _
      · obtain ⟨l, b⟩ := pr
        rw [hm] at h
        cases b with
        | false =>
          rcases hf : forkStep pM nM i (getChar pM i minChar) (getChar nM i maxChar)
            with st | _
          · obtain ⟨⟨p, q⟩, c⟩ := st
            rw [hf] at h
            exact ih _ _ _ _ _ h
          · rw [hf] at h
            cases h
        | true =>
          dsimp only at h
          by_cases hl : rank.length = L
          · rw [if_pos hl] at h
            injection h with h1 h2
            exact absurd h2 (by decide)
          · rw [if_neg hl] at h
            by_cases hko : ((L : Int) - 1 - (rank.length : Int) < 0 ∨
                8 < (L : Int) - 1 - (rank.length : Int))
            · rw [if_pos hko] at h
              cases h
            · rw [if_neg hko] at h
              injection h with h1 h2
              subst h1
              intro r hr
              simp only [List.mem_map] at hr
              obtain ⟨mid, hmid, rfl⟩ := hr
              push_neg at hko
              obtain ⟨hk0, hk8⟩ := hko
              simp only [List.length_append, List.length_cons, List.length_nil,
                List.length_take, trailerStr, List.length_replicate]
              omega
      · rw [hm] at h
        cases h

/-- Claim C5, amended: on every successful generation, each returned major
is the shared prefix plus the chosen interior symbol, right-padded with
the fixed filler symbol so that its length equals
`max(len(lowerMajor), len(upperMajor))` (the claim's `- 1` is the
budget formula `majorLen - 1 - len(rank)` for the trailer alone, not the
final length); in particular all N majors returned by one call have this
same length. -/
theorem C5_amended (n : Int) (prev next : Posn) (fuel : Nat) (ranks : List Posn)
    (h : majorRanks n prev next fuel = .ret ranks true) :
    ∀ r ∈ ranks, r.Major.length = max prev.Major.length next.Major.length :=
  majorLoop_ret_length n (max prev.Major.length next.Major.length) prev.Bucket
    fuel prev.Major next.Major [] 0 ranks h

/-- Witness for `C5_amended`: the single rank generated between `"0"` and
`"z"` has major `"U"` of length `max 1 1 = 1`. -/
theorem C5_witness :
    (⟨0, [85], [58]⟩ : Posn).Major.length =
      max ([48] : List Nat).length ([122] : List Nat).length :=
  C5_amended 1 ⟨0, [48], [58]⟩ ⟨0, [122], [58]⟩ 5 [⟨0, [85], [58]⟩]
    (by decide) ⟨0, [85], [58]⟩ (by decide)

end Lexorank

namespace Lexorank

/-! ## Claim C2, amended -/

/-- With 1 ≤ n ≤ 60, `mids` between the two sentinel padding characters
`'0'` and `'z'` never reports "no room": the spacing `61 / (n+1)` is at
least 1. (It is exactly this spacing that is 0 for n = 61, which is what
makes `C2_counterexample` loop forever.) -/
theorem mids_sentinel_not_false (n : Int) (h1 : 1 ≤ n) (h60 : n ≤ 60) (l : List Nat) :
    mids n minChar maxChar ≠ .ok (l, false) := by
  intro h
  simp only [mids] at h
  rw [if_neg (show ¬ n + 1 = 0 by omega)] at h
  have hd : ((byteToOrder maxChar + 256 - byteToOrder minChar) % 256 : Nat) = 61 := by
    decide
  rw [hd] at h
  have hper : goDiv ((61 : Nat) : Int) (n + 1) = ((61 / (n + 1).natAbs : Nat) : Int) := by
    unfold goDiv
    rw [if_pos (Or.inl ⟨by omega, by omega⟩)]
    norm_num
  rw [hper] at h
  have hge : 1 ≤ 61 / (n + 1).natAbs :=
    (Nat.one_le_div_iff (by omega)).mpr (by omega)
  rw [if_neg (by omega : ¬ ((61 / (n + 1).natAbs : Nat) : Int) < 1)] at h
  rw [if_neg (by omega : ¬ n < 0)] at h
  rcases hb : midsBuild (byteToOrder minChar) ((61 / (n + 1).natAbs : Nat) : Int) n.toNat
    with ch | _
  · rw [hb] at h
    dsimp only at h
    simp only [GoRes.ok.injEq, Prod.mk.injEq] at h
    exact absurd h.2 (by decide)
  · rw [hb] at h
    dsimp only at h
    cases h

/-- The two possible successful outcomes of the divergence step: either
the upper major is rewritten (to the shared prefix plus the lower bound's
character) or the lower major is (to the shared prefix plus the upper
bound's character); the other side is unchanged. -/
theorem forkStep_ok_cases (pM nM : List Nat) (i : Nat) (pc nc : Nat)
    (p q : List Nat) (c : Nat)
    (h : forkStep pM nM i pc nc = .ok ((p, q), c)) :
    (p = pM ∧ q = nM.take i ++ [pc]) ∨ (p = pM.take i ++ [nc] ∧ q = nM) := by
  unfold forkStep at h
  by_cases h1 : MaxMultiRank - byteToOrder (getChar pM (i + 1) minChar) >
      byteToOrder (getChar nM (i + 1) maxChar)
  · rw [if_pos h1] at h
    by_cases h2 : i ≤ nM.length
    · rw [if_pos h2] at h
      simp only [GoRes.ok.injEq, Prod.mk.injEq] at h
      exact Or.inl ⟨h.1.1.symm, h.1.2.symm⟩
    · rw [if_neg h2] at h
      cases h
  · rw [if_neg h1] at h
    by_cases h2 : i ≤ pM.length
    · rw [if_pos h2] at h
      simp only [GoRes.ok.injEq, Prod.mk.injEq] at h
      exact Or.inr ⟨h.1.1.symm, h.1.2.symm⟩
    · rw [if_neg h2] at h
      cases h

/-- Termination of the `majorRanks` loop for 1 ≤ n ≤ 60: as long as both
current majors fit within `max majorLen i` (which every iteration
preserves: the divergence step truncates a major to length i+1), the loop
exits — by success, by the no-room flag, or by a panic — no later than the
iteration with index `majorLen`, where both characters are the sentinel
defaults `'0'` and `'z'` and `mids` cannot fail. -/
theorem majorLoop_exits (n : Int) (h1 : 1 ≤ n) (h60 : n ≤ 60) (L bucket : Nat) :
    ∀ (fuel i : Nat) (pM nM rank : List Nat),
      pM.length ≤ max L i → nM.length ≤ max L i → i ≤ L → L + 1 ≤ i + fuel →
      majorLoop n L bucket pM nM rank i fuel ≠ .more := by
  intro fuel
  induction fuel with
  | zero =>
    intro i pM nM rank hp hq hi hf
    intro hMore
    omega
  | succ fuel ih =>
    intro i pM nM rank hp hq hi hf
    rw [max_eq_left hi] at hp hq
    rcases Nat.eq_or_lt_of_le hi with hiL | hiL
    · subst hiL
      have hpc : getChar pM i minChar = minChar := by
        simp only [getChar]
        exact List.getD_eq_default _ _ (by omega)
      have hqc : getChar nM i maxChar = maxChar := by
        simp only [getChar]
        exact List.getD_eq_default _ _ (by omega)
      intro hMore
      simp only [majorLoop, hpc, hqc] at hMore
      rw [if_neg (by decide : ¬ (minChar = maxChar))] at hMore
      rcases hm : mids n minChar maxChar with pr | _
      · obtain ⟨l, b⟩ := pr
        cases b with
        | false => exact mids_sentinel_not_false n h1 h60 l hm
        | true =>
          rw [hm] at hMore
          dsimp only at hMore
          by_cases hl : rank.length = i
          · rw [if_pos hl] at hMore; cases hMore
          · rw [if_neg hl] at hMore
            by_cases hk : ((i : Int) - 1 - (rank.length : Int) < 0 ∨
                8 < (i : Int) - 1 - (rank.length : Int))
            · rw [if_pos hk] at hMore; cases hMore
            · rw [if_neg hk] at hMore; cases hMore
      · rw [hm] at hMore
        dsimp only at hMore
        cases hMore
    · intro hMore
      simp only [majorLoop] at hMore
      by_cases hc : getChar pM i minChar = getChar nM i maxChar
      · rw [if_pos hc] at hMore
        exact ih (i + 1) pM nM _ (by omega) (by omega) (by omega) (by omega) hMore
      · rw [if_neg hc] at hMore
        rcases hm : mids n (getChar pM i minChar) (getChar nM i maxChar) with pr | _
        · obtain ⟨l, b⟩ := pr
          cases b with
          | false =>
            rw [hm] at hMore
            dsimp only at hMore
            rcases hfk : forkStep pM nM i (getChar pM i minChar) (getChar nM i maxChar)
              with st | _
            · obtain ⟨⟨p, q⟩, c⟩ := st
              rw [hfk] at hMore
              dsimp only at hMore
              have hlen : p.length ≤ max L (i + 1) ∧ q.length ≤ max L (i + 1) := by
                have ht1 : (nM.take i ++ [getChar pM i minChar]).length =
                    min i nM.length + 1 := by
                  simp
                have ht2 : (pM.take i ++ [getChar nM i maxChar]).length =
                    min i pM.length + 1 := by
                  simp
                rcases forkStep_ok_cases pM nM i _ _ p q c hfk with ⟨hp2, hq2⟩ | ⟨hp2, hq2⟩ <;>
                  subst hp2 <;> subst hq2 <;> exact ⟨by omega, by omega⟩
              exact ih (i + 1) p q _ hlen.1 hlen.2 (by omega) (by omega) hMore
            · rw [hfk] at hMore
              dsimp only at hMore
              cases hMore
          | true =>
            rw [hm] at hMore
            dsimp only at hMore
            by_cases hl : rank.length = L
            · rw [if_pos hl] at hMore; cases hMore
            · rw [if_neg hl] at hMore
              by_cases hk : ((L : Int) - 1 - (rank.length : Int) < 0 ∨
                  8 < (L : Int) - 1 - (rank.length : Int))
              · rw [if_pos hk] at hMore; cases hMore
              · rw [if_neg hk] at hMore; cases hMore
        · rw [hm] at hMore
          dsimp only at hMore
          cases hMore

/-- Claim C2, amended: the batch size must be restricted to 1 ≤ N ≤ 60 —
for every pair of bounds the Interval Splitter's loop then exits within
`max(len(lowerMajor), len(upperMajor)) + N` iterations (by returning
ranks, reporting no room, or panicking); at N = 61, which the claim as
stated includes, the loop need not terminate (`C2_counterexample`). -/
theorem C2_amended (n : Int) (prev next : Posn) (fuel : Nat)
    (h1 : 1 ≤ n) (h60 : n ≤ 60)
    (hf : max prev.Major.length next.Major.length + n.toNat ≤ fuel) :
    majorRanks n prev next fuel ≠ .more := by
  unfold majorRanks
  exact majorLoop_exits n h1 h60 _ _ fuel 0 _ _ _
    (by omega) (by omega) (by omega) (by omega)

/-- Witness for `C2_amended`: n = 1, bounds `"0"` and `"z"`, fuel
`max 1 1 + 1 = 2`: the loop has exited. -/
theorem C2_witness :
    majorRanks 1 ⟨0, [48], [58]⟩ ⟨0, [122], [58]⟩ 2 ≠ .more :=
  C2_amended 1 ⟨0, [48], [58]⟩ ⟨0, [122], [58]⟩ 2 (by decide) (by decide) (by decide)

end Lexorank

namespace Lexorank

/-! ## Claim C3, amended -/

/-- Claim C3, amended: for single-symbol majors at successive alphabet
ordinals (no integer spacing available) and N = 1, the MAJOR-level
splitter does detect no room and reports it with a false ok flag and no
ranks — but the public `Posn`-variant `Ranks` call then falls through to
the unimplemented minor-value stub and aborts, rather than returning the
flag to the caller. (The plain-string variant instead succeeds by
extending precision: `C3_counterexample`.) -/
theorem C3_amended (b1 b2 bk1 bk2 : Nat) (m1 m2 : List Nat) (fuel : Nat)
    (hord : byteToOrder b2 = byteToOrder b1 + 1) :
    majorRanks 1 ⟨bk1, [b1], m1⟩ ⟨bk2, [b2], m2⟩ (fuel + 2) = .ret [] false ∧
    Ranks 1 (some ⟨bk1, [b1], m1⟩) (some ⟨bk2, [b2], m2⟩) (fuel + 2) = .crash := by
  have hne : b1 ≠ b2 := by
    intro h
    rw [h] at hord
    omega
  have hm : mids 1 b1 b2 = .ok ([], false) := by
    simp only [mids]
    rw [if_neg (by norm_num : ¬ (1 : Int) + 1 = 0)]
    have hd : ((byteToOrder b2 + 256 - byteToOrder b1) % 256 : Nat) = 1 := by
      rw [hord]
      omega
    rw [hd]
    rw [show goDiv ((1 : Nat) : Int) (1 + 1) = 0 by decide]
    rw [if_pos (by norm_num : (0 : Int) < 1)]
  have hstep1 : ∀ f : Nat, majorLoop 1 1 bk1 [b1] [b2] [] 0 (f + 1) =
      majorLoop 1 1 bk1 [b2] [b2] [b2] 1 f := by
    intro f
    have hg1 : getChar [b1] 0 minChar = b1 := rfl
    have hg2 : getChar [b2] 0 maxChar = b2 := rfl
    have hf : forkStep [b1] [b2] 0 b1 b2 = .ok (([b2], [b2]), b2) := by
      unfold forkStep
      have ha : getChar [b1] (0 + 1) minChar = minChar := rfl
      have hb : getChar [b2] (0 + 1) maxChar = maxChar := rfl
      rw [ha, hb]
      rw [show byteToOrder minChar = 0 by decide, show byteToOrder maxChar = 61 by decide]
      rw [if_neg (by decide : ¬ MaxMultiRank - 0 > 61)]
      rw [if_pos (by simp : 0 ≤ ([b1] : List Nat).length)]
      rfl
    simp only [majorLoop, hg1, hg2]
    rw [if_neg hne, hm]
    dsimp only
    rw [hf]
    rfl
  have hstep2 : ∀ f : Nat, majorLoop 1 1 bk1 [b2] [b2] [b2] 1 (f + 1) = .ret [] false := by
    intro f
    have hg1 : getChar [b2] 1 minChar = minChar := rfl
    have hg2 : getChar [b2] 1 maxChar = maxChar := rfl
    simp only [majorLoop, hg1, hg2]
    rw [if_neg (by decide : ¬ (minChar = maxChar))]
    rw [show mids 1 minChar maxChar = .ok ([85], true) by decide]
    dsimp only
    rw [if_pos (show ([b2] : List Nat).length = 1 from rfl)]
  have hmr : majorRanks 1 ⟨bk1, [b1], m1⟩ ⟨bk2, [b2], m2⟩ (fuel + 2) = .ret [] false := by
    show majorLoop 1 1 bk1 [b1] [b2] [] 0 (fuel + 1 + 1) = .ret [] false
    rw [hstep1 (fuel + 1)]
    exact hstep2 fuel
  refine ⟨hmr, ?_⟩
  simp only [Ranks]
  rw [if_neg (show ¬ ((1 : Int) > ((MaxMultiRank : Nat) : Int)) by
    norm_num [MaxMultiRank])]
  rw [if_neg (show ¬ (([b1] : List Nat) = [b2]) by simp [hne])]
  rw [hmr]
  rfl

/-- Witness for `C3_amended`: the adjacent majors `"A"` and `"B"`
(ordinals 10 and 11), N = 1. -/
theorem C3_witness :
    majorRanks 1 ⟨0, [65], [58]⟩ ⟨0, [66], [58]⟩ 10 = .ret [] false ∧
    Ranks 1 (some ⟨0, [65], [58]⟩) (some ⟨0, [66], [58]⟩) 10 = .crash :=
  C3_amended 65 66 0 0 [58] [58] 8 (by decide)

end Lexorank

namespace Lexorank

/-! ## Claim C6, amended -/

/-- `takeWhile` passes over a prefix on which the predicate holds
everywhere. -/
theorem takeWhile_app (p : Nat → Bool) (l1 l2 : List Nat) (h : l1.all p) :
    (l1 ++ l2).takeWhile p = l1 ++ l2.takeWhile p := by
  induction l1 with
  | nil => simp
  | cons a l ih =>
    simp only [List.all_cons, Bool.and_eq_true] at h
    simp [List.cons_append, List.takeWhile_cons, h.1, ih h.2]

/-- `dropWhile` passes over a prefix on which the predicate holds
everywhere. -/
theorem dropWhile_app (p : Nat → Bool) (l1 l2 : List Nat) (h : l1.all p) :
    (l1 ++ l2).dropWhile p = l2.dropWhile p := by
  induction l1 with
  | nil => simp
  | cons a l ih =>
    simp only [List.all_cons, Bool.and_eq_true] at h
    simp only [List.cons_append, List.dropWhile_cons, h.1, ih h.2]
    simp [h.1]

/-- Claim C6, amended to the grammar the code actually recognizes: for
every Position whose bucket is one of 0, 1, 2, whose major is a nonempty
string over the 36 symbols `[0-9a-z]` (not the full 62-symbol alphabet:
`C6_counterexample`), and whose minor is either empty or `":"` followed by
symbols of `[0-9a-z]`, parsing the formatted text succeeds and returns the
Position unchanged: `ParseJira(p.String()) = (p, true)`. -/
theorem C6_amended (p : Posn) (hb : p.Bucket ≤ 2) (hM : p.Major ≠ [])
    (hMa : p.Major.all isBase36)
    (hmin : p.Minor = [] ∨ ∃ ms, p.Minor = 58 :: ms ∧ ms.all isBase36) :
    parseJira (posnString p) = some p := by
  obtain ⟨bk, M, mn⟩ := p
  simp only at hb hM hMa hmin
  have hdec : decimalBytes bk = [48 + bk] := by
    unfold decimalBytes
    rw [if_pos (by omega)]
  simp only [posnString, hdec]
  have hshape : ([48 + bk] ++ [124] ++ M ++ mn) = (48 + bk) :: 124 :: (M ++ mn) := by
    simp
  rw [hshape]
  dsimp only [parseJira]
  rw [if_pos ⟨by omega, rfl⟩]
  have hbk : 48 + bk - 48 = bk := by omega
  rcases hmin with hmn | ⟨ms, hmn, hms⟩
  · subst hmn
    have ht : (M ++ ([] : List Nat)).takeWhile isBase36 = M := by
      rw [takeWhile_app isBase36 M [] hMa]
      simp
    have hd2 : (M ++ ([] : List Nat)).dropWhile isBase36 = [] := by
      rw [dropWhile_app isBase36 M [] hMa]
      simp
    rw [ht, hd2, if_neg hM]
    simp [hbk]
  · subst hmn
    have h58 : isBase36 58 = false := by decide
    have ht : (M ++ 58 :: ms).takeWhile isBase36 = M := by
      rw [takeWhile_app isBase36 M (58 :: ms) hMa]
      simp [List.takeWhile_cons, h58]
    have hd2 : (M ++ 58 :: ms).dropWhile isBase36 = 58 :: ms := by
      rw [dropWhile_app isBase36 M (58 :: ms) hMa]
      simp [List.dropWhile_cons, h58]
    rw [ht, hd2, if_neg hM]
    simp [hms, hbk]

/-- Witness for `C6_amended`: the Position `{1, "ab", ":c"}` round-trips
through `"1|ab:c"`. -/
theorem C6_witness :
    parseJira (posnString ⟨1, [97, 98], [58, 99]⟩) = some ⟨1, [97, 98], [58, 99]⟩ :=
  C6_amended ⟨1, [97, 98], [58, 99]⟩ (by decide) (by decide) (by decide)
    (Or.inr ⟨[99], rfl, by decide⟩)

end Lexorank

namespace Lexorank

/-! ## Claim C7, amended -/

/-- Claim C7, amended: at every divergence index where no interior symbol
fits, the splitter computes capacity-after-prev = 61 − order(lower major's
character at the next index, boundary-padded) and capacity-before-next =
order(upper major's character at the next index, boundary-padded), and the
bound with LESS (or tied) remaining capacity is the one whose major is
rewritten, up to and including this index, to equal the other bound's
character at this index (the claim said the bound with more capacity:
`C7_counterexample`); the chosen character is appended to the shared
prefix and the scan continues. In particular for lower major `"005z"` and
upper major `"006b"` with N = 1, generation succeeds with the single
result major `"006I"`, which shares the `"00"` prefix. -/
theorem C7_amended :
    (∀ (n : Int) (L bk : Nat) (pM nM rank : List Nat) (i fuel : Nat) (l : List Nat),
       getChar pM i minChar ≠ getChar nM i maxChar →
       mids n (getChar pM i minChar) (getChar nM i maxChar) = .ok (l, false) →
       majorLoop n L bk pM nM rank i (fuel + 1) =
         if MaxMultiRank - byteToOrder (getChar pM (i + 1) minChar) >
             byteToOrder (getChar nM (i + 1) maxChar) then
           (if i ≤ nM.length then
             majorLoop n L bk pM (nM.take i ++ [getChar pM i minChar])
               (rank ++ [getChar pM i minChar]) (i + 1) fuel
           else .crash)
         else
           (if i ≤ pM.length then
             majorLoop n L bk (pM.take i ++ [getChar nM i maxChar]) nM
               (rank ++ [getChar nM i maxChar]) (i + 1) fuel
           else .crash)) ∧
    majorRanks 1 ⟨0, [48, 48, 53, 122], [58]⟩ ⟨0, [48, 48, 54, 98], [58]⟩ 10 =
      .ret [⟨0, [48, 48, 54, 73], [58]⟩] true ∧
    ([48, 48, 54, 73] : List Nat).take 2 = [48, 48] := by
  refine ⟨?_, by decide, by decide⟩
  intro n L bk pM nM rank i fuel l hne hm
  simp only [majorLoop]
  rw [if_neg hne, hm]
  dsimp only
  simp only [forkStep]
  by_cases h1 : MaxMultiRank - byteToOrder (getChar pM (i + 1) minChar) >
      byteToOrder (getChar nM (i + 1) maxChar)
  · rw [if_pos h1]
    by_cases h2 : i ≤ nM.length
    · rw [if_pos h2, if_pos h1, if_pos h2]
    · rw [if_neg h2, if_pos h1, if_neg h2]
  · rw [if_neg h1]
    by_cases h2 : i ≤ pM.length
    · rw [if_pos h2, if_neg h1, if_pos h2]
    · rw [if_neg h2, if_neg h1, if_neg h2]

/-- Witness for the universally quantified part of `C7_amended`: the
divergence of `"005z"` and `"006b"` at index 2 continues by rewriting the
lower major to `"006"` (the side whose remaining capacity, 0, is not more
than the upper side's 37) and appending `'6'` to the shared prefix. -/
theorem C7_witness :
    majorLoop 1 4 0 [48, 48, 53, 122] [48, 48, 54, 98] [48, 48] 2 3 =
      majorLoop 1 4 0 [48, 48, 54] [48, 48, 54, 98] [48, 48, 54] 3 2 := by
  have h := C7_amended.1 1 4 0 [48, 48, 53, 122] [48, 48, 54, 98] [48, 48] 2 2 []
    (by decide) (by decide)
  exact h.trans (by decide)

end Lexorank
